import Mathlib

/-!
Verification of the NanoRSS feed-aggregation service (`src/app.rs`, `src/db.rs`,
`src/err.rs`, `src/fetch.rs`, `src/main.rs`) against its specification.

The Rust code is shallowly embedded as executable Lean definitions:

* The sled key-value store is modelled per tree as an association list from
  byte sequences (lists of naturals below 256) to byte sequences; `insert`
  overwrites by key and `get` is exact-key lookup, matching sled's atomic
  per-key operations.  The whole database is a map from tree name to tree plus
  the `generate_id` counter.  Key-iteration order of sled (lexicographic) is
  abstracted: no settled claim depends on it, and theorems that touch listing
  operations take the listed value as an explicit hypothesis.
* `bincode` (1.x legacy configuration, as invoked through `bincode::serialize`
  and `bincode::deserialize`) is modelled byte-faithfully for the types the
  repository serializes: fixed 8-byte little-endian `u64`, strings as a
  `u64` byte length followed by UTF-8 bytes, `Option` as a one-byte tag
  (0 = `None`, 1 = `Some`, anything else is a deserialization error), structs
  as the concatenation of their fields in declaration order, and trailing
  bytes are ignored by `deserialize`.
* `chrono::DateTime<Utc>` is modelled as an integer timestamp.  Its serde
  form is an RFC3339 string; the exact calendar rendering is a collaborator
  concern, modelled here as the decimal rendering of the timestamp, which has
  the same wire shape (a bincode string) and the same injectivity.
* The network client and the feed parser are external collaborators, passed in
  as an environment mapping a feed URL to either a typed error or a parsed
  entry list.  Wall-clock reads are passed in as explicit time parameters.
* `tokio`/`futures` concurrency: `try_for_each_concurrent` completes every
  task before the stream future resolves; its outcome on the store is modelled
  as the sequential fold over the feed list (per-feed writes go to distinct
  keys, so any interleaving yields this result), and the join before the
  index rebuild is made observable through an explicit event trace.
* The indicium search index is a collaborator; its build and query are
  modelled as a deterministic token map derived from each article's
  `strings()` (title, summary, content) as in `impl Indexable for Article`.
-/

namespace NanoRSS

/-! ## Bytes and bincode wire model -/

/-- Fixed-width little-endian encoding of an unsigned integer (`w` bytes),
as bincode 1.x fixint encoding writes a `u64` for `w = 8`. -/
def serLE : Nat → Nat → List Nat
  | 0, _ => []
  | w + 1, n => n % 256 :: serLE w (n / 256)

/-- Little-endian decoding of `w` bytes; fails if the input is too short. -/
def parseLE : Nat → List Nat → Option (Nat × List Nat)
  | 0, bs => some (0, bs)
  | _ + 1, [] => none
  | w + 1, b :: bs => (parseLE w bs).map fun p => (b + 256 * p.1, p.2)

/-- UTF-8 encoding of one character (as Rust's `str::as_bytes` produces). -/
def utf8Char (c : Char) : List Nat :=
  let n := c.toNat
  if n < 0x80 then [n]
  else if n < 0x800 then [0xC0 + n / 64, 0x80 + n % 64]
  else if n < 0x10000 then [0xE0 + n / 4096, 0x80 + n / 64 % 64, 0x80 + n % 64]
  else [0xF0 + n / 262144, 0x80 + n / 4096 % 64, 0x80 + n / 64 % 64, 0x80 + n % 64]

/-- UTF-8 bytes of a string. -/
def utf8Str (s : String) : List Nat :=
  (s.data.map utf8Char).flatten

/-- UTF-8 decoding of a whole byte sequence; fails on malformed input
(as `String::from_utf8` inside bincode's string deserialization does). -/
def decodeUtf8 : List Nat → Option (List Char)
  | [] => some []
  | b0 :: t0 =>
    if b0 < 0x80 then (decodeUtf8 t0).map fun cs => Char.ofNat b0 :: cs
    else if b0 < 0xC0 then none
    else if b0 < 0xE0 then
      match t0 with
      | b1 :: t1 =>
        if 0x80 ≤ b1 ∧ b1 < 0xC0 then
          (decodeUtf8 t1).map fun cs => Char.ofNat ((b0 - 0xC0) * 64 + (b1 - 0x80)) :: cs
        else none
      | _ => none
    else if b0 < 0xF0 then
      match t0 with
      | b1 :: b2 :: t2 =>
        if (0x80 ≤ b1 ∧ b1 < 0xC0) ∧ (0x80 ≤ b2 ∧ b2 < 0xC0) then
          (decodeUtf8 t2).map fun cs =>
            Char.ofNat ((b0 - 0xE0) * 4096 + (b1 - 0x80) * 64 + (b2 - 0x80)) :: cs
        else none
      | _ => none
    else if b0 < 0xF8 then
      match t0 with
      | b1 :: b2 :: b3 :: t3 =>
        if (0x80 ≤ b1 ∧ b1 < 0xC0) ∧ (0x80 ≤ b2 ∧ b2 < 0xC0) ∧ (0x80 ≤ b3 ∧ b3 < 0xC0) then
          (decodeUtf8 t3).map fun cs =>
            Char.ofNat ((b0 - 0xF0) * 262144 + (b1 - 0x80) * 4096 +
              (b2 - 0x80) * 64 + (b3 - 0x80)) :: cs
        else none
      | _ => none
    else none

/-- Split off the first `n` bytes; fails if the input is too short. -/
def takeN : Nat → List Nat → Option (List Nat × List Nat)
  | 0, bs => some ([], bs)
  | _ + 1, [] => none
  | n + 1, b :: bs => (takeN n bs).map fun p => (b :: p.1, p.2)

/-- bincode encoding of a Rust `String`/`&str`: `u64` byte length, then
UTF-8 bytes. -/
def serStr (s : String) : List Nat :=
  serLE 8 (utf8Str s).length ++ utf8Str s

/-- bincode decoding of a Rust `String`. -/
def parseStr (bs : List Nat) : Option (String × List Nat) :=
  match parseLE 8 bs with
  | none => none
  | some (len, r) =>
    match takeN len r with
    | none => none
    | some (raw, rest) =>
      match decodeUtf8 raw with
      | none => none
      | some cs => some (String.mk cs, rest)

/-- bincode encoding of `Option<String>`: tag byte then payload. -/
def serOptStr : Option String → List Nat
  | none => [0]
  | some s => 1 :: serStr s

/-- bincode decoding of `Option<String>`. -/
def parseOptStr : List Nat → Option (Option String × List Nat)
  | [] => none
  | 0 :: bs => some (none, bs)
  | 1 :: bs => (parseStr bs).map fun p => (some p.1, p.2)
  | _ => none

/-! ## Timestamps

`chrono::DateTime<Utc>` is modelled as an integer timestamp; `dtMinUtc` models
`DateTime::<Utc>::MIN_UTC`.  serde renders a datetime as an RFC3339 string;
the calendar rendering is modelled as the decimal rendering of the timestamp
(same wire shape — a bincode string — and injective like the real one). -/

/-- Decimal digit characters of a positive natural, most significant first.
The first argument is fuel (any bound on the number, e.g. the number itself). -/
def natChars : Nat → Nat → List Char
  | 0, _ => []
  | fuel + 1, n =>
    if n = 0 then []
    else natChars fuel (n / 10) ++ [Char.ofNat (48 + n % 10)]

/-- Decimal rendering of a natural. -/
def natStr (n : Nat) : String :=
  if n = 0 then "0" else String.mk (natChars n n)

/-- Model of the RFC3339 rendering of a timestamp (see module comment). -/
def dtStr (t : Int) : String :=
  if t < 0 then "-" ++ natStr t.natAbs else natStr t.natAbs

/-- Value of a list of decimal digit characters; fails on a non-digit. -/
def digitsVal : List Char → Option Nat
  | [] => some 0
  | c :: cs =>
    if 48 ≤ c.toNat ∧ c.toNat ≤ 57 then
      (digitsVal cs).map fun v => (c.toNat - 48) * 10 ^ cs.length + v
    else none

/-- Model of chrono's datetime parsing, inverse to `dtStr`; fails on
malformed input. -/
def dtParse (s : String) : Option Int :=
  match s.data with
  | [] => none
  | '-' :: cs =>
    if cs = [] then none else (digitsVal cs).map fun v => -(v : Int)
  | cs => (digitsVal cs).map fun v => (v : Int)

/-- bincode encoding of a `DateTime<Utc>` field (a serde string). -/
def serDt (t : Int) : List Nat :=
  serStr (dtStr t)

/-- bincode decoding of a `DateTime<Utc>` field. -/
def parseDt (bs : List Nat) : Option (Int × List Nat) :=
  match parseStr bs with
  | none => none
  | some (s, rest) =>
    match dtParse s with
    | none => none
    | some t => some (t, rest)

/-- Models `chrono::DateTime::<Utc>::MIN_UTC` (the minimum representable
UTC timestamp) as a fixed integer constant. -/
def dtMinUtc : Int := -8334632851200

/-! ## Data model (`src/db.rs`) -/

/-- `pub struct ScraperConfig {}` — an empty struct; bincode serializes it to
zero bytes. -/
structure ScraperConfig where
  deriving DecidableEq

/-- `pub struct Feed` from `src/db.rs`, fields in declaration order.
`url` is modelled by its string form (serde serializes `url::Url` as a
string); `id` is a `u64`. -/
structure Feed where
  id : Nat
  url : String
  name : String
  scraper : Option ScraperConfig
  last_fetch_time : Int
  last_error : Option String
  deriving DecidableEq

/-- `pub struct Article` from `src/db.rs`, fields in declaration order. -/
structure Article where
  id : String
  feed_id : Nat
  published : Int
  url : Option String
  title : String
  summary : String
  content : String
  deriving DecidableEq

/-- `pub struct NewFeed` from `src/db.rs`. -/
structure NewFeed where
  url : String
  name : Option String
  scraper : Option ScraperConfig
  deriving DecidableEq

/-- `pub struct PatchFeed` from `src/db.rs`. -/
structure PatchFeed where
  id : Nat
  url : Option String
  name : Option String
  scraper : Option (Option ScraperConfig)
  deriving DecidableEq

/-- bincode encoding of `Option<ScraperConfig>`: a tag byte; the empty struct
itself contributes no bytes. -/
def serOptScraper : Option ScraperConfig → List Nat
  | none => [0]
  | some _ => [1]

/-- bincode decoding of `Option<ScraperConfig>`. -/
def parseOptScraper : List Nat → Option (Option ScraperConfig × List Nat)
  | [] => none
  | 0 :: bs => some (none, bs)
  | 1 :: bs => some (some ⟨⟩, bs)
  | _ => none

/-- `bincode::serialize(&feed)`: fields concatenated in declaration order. -/
def serFeed (f : Feed) : List Nat :=
  serLE 8 f.id ++ serStr f.url ++ serStr f.name ++ serOptScraper f.scraper ++
    serDt f.last_fetch_time ++ serOptStr f.last_error

/-- bincode decoding of a `Feed` value. -/
def parseFeed (bs : List Nat) : Option (Feed × List Nat) :=
  match parseLE 8 bs with
  | none => none
  | some (id, r1) =>
    match parseStr r1 with
    | none => none
    | some (url, r2) =>
      match parseStr r2 with
      | none => none
      | some (name, r3) =>
        match parseOptScraper r3 with
        | none => none
        | some (scraper, r4) =>
          match parseDt r4 with
          | none => none
          | some (lft, r5) =>
            match parseOptStr r5 with
            | none => none
            | some (le, r6) => some (⟨id, url, name, scraper, lft, le⟩, r6)

/-- bincode decoding of `Option<Feed>` — the element type `Feed::get_id`
actually deserializes into (see the `if let`/`else` typing in `src/db.rs`). -/
def parseOptFeed : List Nat → Option (Option Feed × List Nat)
  | [] => none
  | 0 :: bs => some (none, bs)
  | 1 :: bs => (parseFeed bs).map fun p => (some p.1, p.2)
  | _ => none

/-- `bincode::serialize(&article)`: fields concatenated in declaration
order. -/
def serArticle (a : Article) : List Nat :=
  serStr a.id ++ serLE 8 a.feed_id ++ serDt a.published ++ serOptStr a.url ++
    serStr a.title ++ serStr a.summary ++ serStr a.content

/-- bincode decoding of an `Article` value. -/
def parseArticle (bs : List Nat) : Option (Article × List Nat) :=
  match parseStr bs with
  | none => none
  | some (id, r1) =>
    match parseLE 8 r1 with
    | none => none
    | some (fid, r2) =>
      match parseDt r2 with
      | none => none
      | some (pub, r3) =>
        match parseOptStr r3 with
        | none => none
        | some (url, r4) =>
          match parseStr r4 with
          | none => none
          | some (title, r5) =>
            match parseStr r5 with
            | none => none
            | some (summary, r6) =>
              match parseStr r6 with
              | none => none
              | some (content, r7) => some (⟨id, fid, pub, url, title, summary, content⟩, r7)

/-- bincode decoding of `Option<Article>` — the element type
`Article::get_id` actually deserializes into. -/
def parseOptArticle : List Nat → Option (Option Article × List Nat)
  | [] => none
  | 0 :: bs => some (none, bs)
  | 1 :: bs => (parseArticle bs).map fun p => (some p.1, p.2)
  | _ => none

/-! ## Errors (`src/err.rs`)

Only the variants the settled claims can reach are modelled; each carries the
display string of its wrapped source error, so `Err.msg` is the
`format!("{}", e)` rendering used for `last_error`. -/

/-- The `Error` enum of `src/err.rs`, restricted to the reachable variants. -/
inductive Err where
  | notFound : String → Err
  | encode : String → Err
  | reqwest : String → Err
  | feedRs : String → Err
  deriving DecidableEq

/-- `format!("{}", e)`: the `#[error(...)]` display strings of `src/err.rs`. -/
def Err.msg : Err → String
  | .notFound s => s ++ " was not found"
  | .encode s => "serialization error: " ++ s
  | .reqwest s => "http client error: " ++ s
  | .feedRs s => "error while parsing feed: " ++ s

/-! ## The sled store (tenant store) -/

/-- One sled tree: an association list from key bytes to value bytes.
`treeInsert` overwrites in place, `treeGet` is exact-key lookup. -/
def Tree : Type := List (List Nat × List Nat)

instance : DecidableEq Tree := by
  unfold Tree; infer_instance

/-- sled `Tree::insert`: atomically set a key, overwriting any prior value. -/
def treeInsert (t : Tree) (k v : List Nat) : Tree :=
  match t with
  | [] => [(k, v)]
  | (k', v') :: rest => if k' = k then (k, v) :: rest else (k', v') :: treeInsert rest k v

/-- sled `Tree::get`: exact-key point lookup. -/
def treeGet (t : Tree) (k : List Nat) : Option (List Nat) :=
  match t with
  | [] => none
  | (k', v') :: rest => if k' = k then some v' else treeGet rest k

/-- The whole sled database: named trees plus the `generate_id` counter.
An unopened tree is empty, so `sled::Db::open_tree` itself is pure here. -/
structure Db where
  trees : List (String × Tree)
  nextId : Nat
  deriving DecidableEq

/-- Name-indexed lookup in the tree registry. -/
def treesGet : List (String × Tree) → String → Option Tree
  | [], _ => none
  | (n', t') :: rest, n => if n' = n then some t' else treesGet rest n

/-- Name-indexed overwrite in the tree registry. -/
def treesSet : List (String × Tree) → String → Tree → List (String × Tree)
  | [], n, t => [(n, t)]
  | (n', t') :: rest, n, t =>
    if n' = n then (n, t) :: rest else (n', t') :: treesSet rest n t

/-- The tree registered under a name (empty if never written). -/
def Db.tree (db : Db) (name : String) : Tree :=
  (treesGet db.trees name).getD []

/-- Replace one named tree. -/
def Db.setTree (db : Db) (name : String) (t : Tree) : Db :=
  { db with trees := treesSet db.trees name t }

/-- Update one named tree in place. -/
def updTree (db : Db) (name : String) (f : Tree → Tree) : Db :=
  db.setTree name (f (db.tree name))

/-- `sled::Db::generate_id`: a monotonic fresh-id counter. -/
def Db.generateId (db : Db) : Nat × Db :=
  (db.nextId, { db with nextId := db.nextId + 1 })

/-- The per-user collections of `App::open_user` (`src/app.rs`). -/
inductive Col where
  | feeds
  | articles
  | index
  deriving DecidableEq

/-- The `TREE_FEEDS`/`TREE_ARTICLES`/`TREE_INDEX` constants of `src/app.rs`. -/
def Col.str : Col → String
  | .feeds => "feeds"
  | .articles => "articles"
  | .index => "index"

/-- The tree name — username, then a slash, then the collection constant —
that `App::open_user` resolves for a user and a collection. -/
def colName (u : String) (c : Col) : String :=
  u ++ "/" ++ c.str

/-! ## Repositories (`src/db.rs`)

Every operation is parameterized by the database and the username whose
`AppUser` handle it runs through.  Storage itself (the in-memory map) cannot
fail in the model; `sled::Error` is an environment fault outside the
embedding.  bincode deserialization failures are `Err.encode` values. -/

/-- Collect a list of fallible items, stopping at the first error — the
behaviour of both `collect::<Result<Vec<_>>>()` and the `for x in iter`
loops that bail with the question-mark operator. -/
def collectE : List (Except Err α) → Except Err (List α)
  | [] => .ok []
  | .error e :: _ => .error e
  | .ok a :: rest => (collectE rest).map fun as' => a :: as'

/-- `Feed::insert`: key `bincode::serialize(&self.id)` (8-byte LE `u64`),
value `bincode::serialize(&self)`. -/
def Feed.insert (db : Db) (u : String) (f : Feed) : Db :=
  updTree db (colName u .feeds) fun t => treeInsert t (serLE 8 f.id) (serFeed f)

/-- `Feed::get_id`: looks up the bincode key, then — per the `if let`/`else`
typing in the source — deserializes the stored value as `Option<Feed>`
rather than `Feed`. -/
def Feed.get_id (db : Db) (u : String) (id : Nat) : Except Err (Option Feed) :=
  match treeGet (db.tree (colName u .feeds)) (serLE 8 id) with
  | none => .ok none
  | some v =>
    match parseOptFeed v with
    | none => .error (.encode "invalid data")
    | some (of, _) => .ok of

/-- `Feed::get_all`: every stored value deserialized as `Feed`, first error
aborts. -/
def Feed.get_all (db : Db) (u : String) : Except Err (List Feed) :=
  collectE ((db.tree (colName u .feeds)).map fun p =>
    match parseFeed p.2 with
    | none => .error (.encode "invalid data")
    | some (f, _) => .ok f)

/-- `Article::insert`: key `self.id.as_bytes()` (raw UTF-8 bytes, no length
prefix), value `bincode::serialize(self)`. -/
def Article.insert (db : Db) (u : String) (a : Article) : Db :=
  updTree db (colName u .articles) fun t => treeInsert t (utf8Str a.id) (serArticle a)

/-- `Article::get_id`: looks the id up under `bincode::serialize(&id)` (a
length-prefixed string key), then deserializes the stored value as
`Option<Article>` per the `if let`/`else` typing in the source. -/
def Article.get_id (db : Db) (u : String) (id : String) : Except Err (Option Article) :=
  match treeGet (db.tree (colName u .articles)) (serStr id) with
  | none => .ok none
  | some v =>
    match parseOptArticle v with
    | none => .error (.encode "invalid data")
    | some (oa, _) => .ok oa

/-- `Article::iter`: every stored value deserialized as `Article` (this path
uses the correct element type, unlike `get_id`). -/
def Article.iter (db : Db) (u : String) : List (Except Err Article) :=
  (db.tree (colName u .articles)).map fun p =>
    match parseArticle p.2 with
    | none => .error (.encode "invalid data")
    | some (a, _) => .ok a

/-- `Article::get_all`. -/
def Article.get_all (db : Db) (u : String) : Except Err (List Article) :=
  collectE (Article.iter db u)

/-- `NewFeed::insert`: a fresh `generate_id`, `name.unwrap_or_default()`,
`MIN_UTC` fetch time and no error, then `Feed::insert`. -/
def NewFeed.insert (nf : NewFeed) (db : Db) (u : String) : Except Err Unit × Db :=
  let (id, db) := db.generateId
  (.ok (), Feed.insert db u
    { id := id, url := nf.url, name := nf.name.getD "", scraper := nf.scraper,
      last_fetch_time := dtMinUtc, last_error := none })

/-- The field overlay computed inside `PatchFeed::apply` (one `if let` per
optional field). -/
def PatchFeed.overlay (p : PatchFeed) (f : Feed) : Feed :=
  let f := match p.url with | some url => { f with url := url } | none => f
  let f := match p.name with | some name => { f with name := name } | none => f
  match p.scraper with | some scraper => { f with scraper := scraper } | none => f

/-- `PatchFeed::apply`: fetches the stored feed (NotFound if absent),
computes the overlay — and then returns without ever writing the overlaid
record back (the source has no insert call), which is why the result type
carries no updated database. -/
def PatchFeed.apply (p : PatchFeed) (db : Db) (u : String) : Except Err Unit :=
  match Feed.get_id db u p.id with
  | .error e => .error e
  | .ok none => .error (.notFound "feed")
  | .ok (some feed) =>
    let _ := p.overlay feed
    .ok ()

/-! ## Search index (`src/app.rs`)

The indicium index is a collaborator.  Its observable contract is: a
deterministic token-to-article-ids map built from each article's
`strings()` — title, summary, content, per `impl Indexable for Article` —
serialized as one blob under the reserved key.  Tokenization is modelled as
case-insensitive alphanumeric word splitting. -/

/-- Case-insensitive alphanumeric word splitting (model of the indicium
tokenizer; the accumulator carries the current word reversed). -/
def tokenizeAux : List Char → List Char → List String
  | [], [] => []
  | [], acc => [String.mk acc.reverse]
  | c :: cs, acc =>
    if c.isAlphanum then tokenizeAux cs (c.toLower :: acc)
    else
      match acc with
      | [] => tokenizeAux cs []
      | _ => String.mk acc.reverse :: tokenizeAux cs []

/-- Tokens of a string. -/
def tokenize (s : String) : List String :=
  tokenizeAux s.data []

/-- Sorted duplicate-free insertion into a postings list (models a
`BTreeSet<String>`). -/
def postingsInsert (id : String) : List String → List String
  | [] => [id]
  | x :: xs =>
    if id < x then id :: x :: xs
    else if id = x then x :: xs
    else x :: postingsInsert id xs

/-- Sorted-map insertion of one token/article-id pair (models a
`BTreeMap<String, BTreeSet<String>>`). -/
def indexInsert (tok id : String) : List (String × List String) → List (String × List String)
  | [] => [(tok, [id])]
  | (k, ids) :: rest =>
    if tok < k then (tok, [id]) :: (k, ids) :: rest
    else if tok = k then (k, postingsInsert id ids) :: rest
    else (k, ids) :: indexInsert tok id rest

/-- Index one article: token/id pairs from its `strings()` (title, summary,
content). -/
def indexArticle (m : List (String × List String)) (a : Article) : List (String × List String) :=
  (tokenize a.title ++ tokenize a.summary ++ tokenize a.content).foldl
    (fun m tok => indexInsert tok a.id m) m

/-- The full token map of an article corpus. -/
def buildIndex (arts : List Article) : List (String × List String) :=
  arts.foldl indexArticle []

/-- bincode encoding of a list of strings (`u64` count, then elements). -/
def serStrList (l : List String) : List Nat :=
  serLE 8 l.length ++ (l.map serStr).flatten

/-- bincode encoding of the token map (`u64` entry count, then sorted
key/postings entries). -/
def serIndex (m : List (String × List String)) : List Nat :=
  serLE 8 m.length ++ (m.map fun p => serStr p.1 ++ serStrList p.2).flatten

/-- Decode `n` consecutive bincode strings. -/
def parseStrs : Nat → List Nat → Option (List String × List Nat)
  | 0, bs => some ([], bs)
  | n + 1, bs =>
    match parseStr bs with
    | none => none
    | some (s, r) => (parseStrs n r).map fun p => (s :: p.1, p.2)

/-- Decode `n` consecutive token-map entries. -/
def parseIndexEntries : Nat → List Nat → Option (List (String × List String) × List Nat)
  | 0, bs => some ([], bs)
  | n + 1, bs =>
    match parseStr bs with
    | none => none
    | some (k, r1) =>
      match parseLE 8 r1 with
      | none => none
      | some (cnt, r2) =>
        match parseStrs cnt r2 with
        | none => none
        | some (ids, r3) => (parseIndexEntries n r3).map fun p => ((k, ids) :: p.1, p.2)

/-- bincode decoding of the persisted token map. -/
def parseIndex (bs : List Nat) : Option (List (String × List String) × List Nat) :=
  match parseLE 8 bs with
  | none => none
  | some (n, r) => parseIndexEntries n r

/-- The reserved index blob key (raw bytes of the byte-string literal in
`src/app.rs`). -/
def indexKey : List Nat :=
  utf8Str "__article_search_index"

/-- Model of `indicium::simple::SearchIndex::search`: postings for each
query token, intersected. -/
def searchIndexQuery (m : List (String × List String)) (term : String) : List String :=
  match tokenize term with
  | [] => []
  | t :: ts =>
    ts.foldl (fun acc tok =>
        acc.filter fun id => (((m.lookup tok).getD []).contains id))
      ((m.lookup t).getD [])

/-- `AppUser::search`: reconstruct the persisted token map (absent blob means
an empty index) and run a term query over it. -/
def AppUser.search (db : Db) (u : String) (term : String) : Except Err (List String) :=
  match treeGet (db.tree (colName u .index)) indexKey with
  | none => .ok (searchIndexQuery [] term)
  | some bs =>
    match parseIndex bs with
    | none => .error (.encode "invalid data")
    | some (m, _) => .ok (searchIndexQuery m term)

/-- `AppUser::create_search_index`: full scan of the article corpus (any
deserialization failure aborts with an error and writes nothing), then one
atomic overwrite of the reserved blob key. -/
def AppUser.create_search_index (db : Db) (u : String) : Except Err Unit × Db :=
  match Article.get_all db u with
  | .error e => (.error e, db)
  | .ok arts =>
    (.ok (), updTree db (colName u .index) fun t =>
      treeInsert t indexKey (serIndex (buildIndex arts)))

/-- The `Status` payload of `AppUser::status`. -/
structure Status where
  last_new_article : Int
  total_articles : Nat
  deriving DecidableEq

/-- `AppUser::status`: scan the corpus, counting articles and taking the
maximum publish time (starting from `MIN_UTC`). -/
def AppUser.status (db : Db) (u : String) : Except Err Status :=
  (Article.get_all db u).map fun arts =>
    arts.foldl
      (fun st a =>
        { last_new_article := max st.last_new_article a.published,
          total_articles := st.total_articles + 1 })
      { last_new_article := dtMinUtc, total_articles := 0 }

/-! ## Fetch worker and refresh orchestrator (`src/fetch.rs`)

The network client and the `feed_rs` parser are collaborators: refreshing a
feed either yields a typed error (non-2xx status, transport failure, parse
failure) or a list of parsed entries; this is the `FetchEnv` parameter.
Wall-clock reads are time parameters: `tFetch k` is the `Utc::now()` captured
in `fetch_feed` for the feed at batch position `k`, `tDone k` the one
captured for its `last_fetch_time` update. -/

/-- A parsed link (`feed_rs::model::Link`), reduced to its `href`. -/
structure Link where
  href : String
  deriving DecidableEq

/-- A parsed text field (`feed_rs::model::Text`), reduced to its `content`. -/
structure TextField where
  content : String
  deriving DecidableEq

/-- Parsed entry content (`feed_rs::model::Content`): optional body and
optional source link. -/
structure EntryContent where
  body : Option String
  src : Option Link
  deriving DecidableEq

/-- A parsed feed entry (`feed_rs::model::Entry`), reduced to the fields
`fetch_feed` consumes. -/
structure Entry where
  id : String
  title : Option TextField
  summary : Option TextField
  content : Option EntryContent
  links : List Link
  published : Option Int
  deriving DecidableEq

/-- The fetch-and-parse collaborator: per feed URL, either the worker error
or the parsed entries. -/
def FetchEnv : Type :=
  String → Except Err (List Entry)

/-- The article record `fetch_feed` builds for one entry, with the
reconciled publish time `p` passed in: content-source link preferred over
the first listed link, and empty-string defaults for
title/summary/content. -/
def entryArticle (feedId : Nat) (e : Entry) (p : Int) : Article :=
  { id := e.id
    feed_id := feedId
    published := p
    url := ((e.content.bind fun c => c.src).map fun l => l.href).orElse
      fun _ => (e.links.head?.map fun l => l.href)
    title := (e.title.map fun t => t.content).getD ""
    summary := (e.summary.map fun t => t.content).getD ""
    content := (e.content.map fun c => c.body.getD "").getD "" }

/-- The full article record for one entry: `published` reconciled from the
entry, else the previously stored article, else the captured wall-clock
time. -/
def reconcileArticle (feedId : Nat) (now : Int) (prev : Option Article) (e : Entry) : Article :=
  entryArticle feedId e
    ((e.published.orElse fun _ => prev.map fun a => a.published).getD now)

/-- The prior-article lookup in the entry loop of `fetch_feed`: a lookup
error is logged and degraded to absent. -/
def prevLookup (db : Db) (u : String) (id : String) : Option Article :=
  match Article.get_id db u id with
  | .ok a => a
  | .error _ => none

/-- One iteration of the entry loop of `fetch_feed`: prior-article lookup,
reconciliation, upsert. -/
def fetchStep (now : Int) (u : String) (feedId : Nat) (db : Db) (e : Entry) : Db :=
  Article.insert db u (reconcileArticle feedId now (prevLookup db u e.id) e)

/-- The entry loop of `fetch_feed`, in parsed order. -/
def fetchEntries (now : Int) (u : String) (feedId : Nat) : Db → List Entry → Db
  | db, [] => db
  | db, e :: es => fetchEntries now u feedId (fetchStep now u feedId db e) es

/-- `fetch_feed`: fetch and parse via the collaborator; on failure return
the worker error with the store untouched, on success upsert every entry. -/
def fetch_feed (env : FetchEnv) (now : Int) (db : Db) (u : String) (feed : Feed) :
    Except Err Unit × Db :=
  match env feed.url with
  | .error e => (.error e, db)
  | .ok entries => (.ok (), fetchEntries now u feed.id db entries)

/-- The worker-outcome field written to `last_error`: the error's display
string on failure, cleared on success. -/
def workerErr : Except Err Unit → Option String
  | .ok _ => none
  | .error e => some e.msg

/-- Observable refresh events, used to state the ordering contract between
per-feed processing and the index rebuild. -/
inductive Event where
  | feedDone : Nat → Event
  | indexRebuilt : Event
  deriving DecidableEq

/-- The fan-out phase of `fetch_all_feeds` (the `try_for_each_concurrent`
stage): each feed is fetched, then its record is rewritten with the fresh
`last_fetch_time` and the worker outcome, unconditionally.  `k` is the batch
position of the head feed.  The sequential fold models the concurrent
combinator's outcome: every task completes before the stream future
resolves, and the per-feed writes address distinct keys in the settled
claims.  Each completed feed emits a `feedDone` event. -/
def feedStep (env : FetchEnv) (tFetch tDone : Nat → Int) (u : String) (k : Nat)
    (db : Db) (f : Feed) : Db :=
  let r := fetch_feed env (tFetch k) db u f
  Feed.insert r.2 u { f with last_fetch_time := tDone k, last_error := workerErr r.1 }

/-- The fan-out loop over the feed batch; see `feedStep`. -/
def feedPhase (env : FetchEnv) (tFetch tDone : Nat → Int) (u : String) :
    Nat → Db → List Feed → Db × List Event
  | _, db, [] => (db, [])
  | k, db, f :: fs =>
    let step := feedPhase env tFetch tDone u (k + 1) (feedStep env tFetch tDone u k db f) fs
    (step.1, .feedDone f.id :: step.2)

/-- `fetch_all_feeds`: list the feeds, run the fan-out phase to completion,
then — and only then — rebuild the search index, propagating only the
rebuild's own failure.  The result carries the final store and the event
trace. -/
def fetch_all_feeds (env : FetchEnv) (tFetch tDone : Nat → Int) (db : Db) (u : String) :
    Except Err Unit × Db × List Event :=
  match Feed.get_all db u with
  | .error e => (.error e, db, [])
  | .ok feeds =>
    let phase := feedPhase env tFetch tDone u 0 db feeds
    let rebuilt := AppUser.create_search_index phase.1 u
    (rebuilt.1, rebuilt.2, phase.2 ++ [.indexRebuilt])

/-! ## The search/listing route (`src/main.rs`) -/

/-- The `ArticleOrderBy` query enum. -/
inductive ArticleOrderBy where
  | title
  | published
  deriving DecidableEq

/-- The `Order` (direction) query enum. -/
inductive Order where
  | asc
  | desc
  deriving DecidableEq

/-- The `ArticleRequest` query payload. -/
structure ArticleRequest where
  field_id : Option Nat
  q : Option String
  order_by : Option ArticleOrderBy
  order : Option Order
  deriving DecidableEq

/-- Ordered insertion for `sortLe`. -/
def insertLe (le : α → α → Bool) (a : α) : List α → List α
  | [] => [a]
  | b :: bs => if le a b then a :: b :: bs else b :: insertLe le a bs

/-- A stable comparison sort (insertion sort), modelling the Rust standard
sorts the route calls — any correct comparison sort yields a list sorted by
the given key. -/
def sortLe (le : α → α → Bool) : List α → List α
  | [] => []
  | a :: as => insertLe le a (sortLe le as)

/-- The filter applied in the route's article loop: an article is skipped
exactly when the search-result set is present and misses its id, or the
feed-id filter is present and differs. -/
def keepArticle (searchResults : Option (List String)) (fieldId : Option Nat)
    (a : Article) : Bool :=
  !(searchResults.map fun s => s.contains a.id) == some false &&
    !(fieldId.map fun fid => fid == a.feed_id) == some false

/-- The `search` handler of `src/main.rs`: optional term query against the
persisted index, filter, then sort by the requested key (default
`published`), ascending, reversing for the (default `desc`) direction, and
return the article ids. -/
def searchRoute (db : Db) (u : String) (query : ArticleRequest) : Except Err (List String) :=
  match (query.q.map fun q => AppUser.search db u q) with
  | some (.error e) => .error e
  | srch =>
    let searchResults : Option (List String) :=
      match srch with
      | some (.ok l) => some l
      | _ => none
    match Article.get_all db u with
    | .error e => .error e
    | .ok arts =>
      let articles := arts.filter (keepArticle searchResults query.field_id)
      let order_by := query.order_by.getD .published
      let order := query.order.getD
        (match order_by with
         | .title => Order.asc
         | .published => Order.desc)
      let sorted :=
        match order_by with
        | .title => sortLe (fun a b : Article => decide (a.title ≤ b.title)) articles
        | .published => sortLe (fun a b : Article => decide (a.published ≤ b.published)) articles
      let final :=
        match order with
        | .desc => sorted.reverse
        | .asc => sorted
      .ok (final.map fun a => a.id)

/-! ## Repository operations as one closed syntax (for the isolation claim)

`RepoOp` enumerates the repository operations a user's handle exposes
(feed/article CRUD, index build, search, status, the search route); `runOp`
gives each its state effect and output. -/

/-- One repository operation run through a user's `AppUser` handle. -/
inductive RepoOp where
  | newFeed : NewFeed → RepoOp
  | feedInsert : Feed → RepoOp
  | feedGetId : Nat → RepoOp
  | feedGetAll : RepoOp
  | patchApply : PatchFeed → RepoOp
  | articleInsert : Article → RepoOp
  | articleGetId : String → RepoOp
  | articleGetAll : RepoOp
  | indexBuild : RepoOp
  | searchTerm : String → RepoOp
  | statusOp : RepoOp
  | searchList : ArticleRequest → RepoOp

/-- Outputs of repository operations. -/
inductive OpOut where
  | unit : Except Err Unit → OpOut
  | feedOpt : Except Err (Option Feed) → OpOut
  | feeds : Except Err (List Feed) → OpOut
  | articleOpt : Except Err (Option Article) → OpOut
  | articles : Except Err (List Article) → OpOut
  | ids : Except Err (List String) → OpOut
  | status : Except Err Status → OpOut

/-- State effect and output of one repository operation run as user `u`. -/
def runOp (op : RepoOp) (u : String) (db : Db) : Db × OpOut :=
  match op with
  | .newFeed nf => let r := nf.insert db u; (r.2, .unit r.1)
  | .feedInsert f => (Feed.insert db u f, .unit (.ok ()))
  | .feedGetId id => (db, .feedOpt (Feed.get_id db u id))
  | .feedGetAll => (db, .feeds (Feed.get_all db u))
  | .patchApply p => (db, .unit (p.apply db u))
  | .articleInsert a => (Article.insert db u a, .unit (.ok ()))
  | .articleGetId id => (db, .articleOpt (Article.get_id db u id))
  | .articleGetAll => (db, .articles (Article.get_all db u))
  | .indexBuild => let r := AppUser.create_search_index db u; (r.2, .unit r.1)
  | .searchTerm t => (db, .ids (AppUser.search db u t))
  | .statusOp => (db, .status (AppUser.status db u))
  | .searchList q => (db, .ids (searchRoute db u q))

/-! ## Store lemmas -/

theorem treeGet_insert_self (t : Tree) (k v : List Nat) :
    treeGet (treeInsert t k v) k = some v := by
  induction t with
  | nil => simp [treeInsert, treeGet]
  | cons p rest ih =>
    by_cases h : p.1 = k
    · simp [treeInsert, treeGet, h]
    · simp [treeInsert, treeGet, h, ih]

theorem treeGet_insert_ne (t : Tree) (k v k' : List Nat) (h : k' ≠ k) :
    treeGet (treeInsert t k v) k' = treeGet t k' := by
  induction t with
  | nil => simp [treeInsert, treeGet, Ne.symm h]
  | cons p rest ih =>
    by_cases hp : p.1 = k
    · simp [treeInsert, treeGet, hp, Ne.symm h]
    · by_cases hp' : p.1 = k'
      · simp [treeInsert, treeGet, hp, hp', h, Ne.symm h]
      · simp [treeInsert, treeGet, hp, hp', ih]

theorem treesGet_set_self (ts : List (String × Tree)) (n : String) (t : Tree) :
    treesGet (treesSet ts n t) n = some t := by
  induction ts with
  | nil => simp [treesSet, treesGet]
  | cons p rest ih =>
    by_cases h : p.1 = n
    · simp [treesSet, treesGet, h]
    · simp [treesSet, treesGet, h, ih]

theorem treesGet_set_ne (ts : List (String × Tree)) (n : String) (t : Tree) (n' : String)
    (h : n' ≠ n) : treesGet (treesSet ts n t) n' = treesGet ts n' := by
  induction ts with
  | nil => simp [treesSet, treesGet, Ne.symm h]
  | cons p rest ih =>
    by_cases hp : p.1 = n
    · simp [treesSet, treesGet, hp, Ne.symm h]
    · by_cases hp' : p.1 = n'
      · simp [treesSet, treesGet, hp, hp', h, Ne.symm h]
      · simp [treesSet, treesGet, hp, hp', ih]

theorem tree_updTree_self (db : Db) (n : String) (f : Tree → Tree) :
    (updTree db n f).tree n = f (db.tree n) := by
  simp [updTree, Db.setTree, Db.tree, treesGet_set_self]

theorem tree_updTree_ne (db : Db) (n : String) (f : Tree → Tree) (n' : String) (h : n' ≠ n) :
    (updTree db n f).tree n' = db.tree n' := by
  simp [updTree, Db.setTree, Db.tree, treesGet_set_ne _ _ _ _ h]

theorem nextId_updTree (db : Db) (n : String) (f : Tree → Tree) :
    (updTree db n f).nextId = db.nextId := rfl

/-! ## Tree-name disjointness -/

theorem colName_inj {u u' : String} {c c' : Col} (h : colName u c = colName u' c') :
    u = u' ∧ c = c' := by
  have hd : u.data ++ ('/' :: c.str.data) = u'.data ++ ('/' :: c'.str.data) := by
    have hdd := congrArg String.data h
    simpa [colName, String.data_append] using hdd
  have hc : c = c' := by
    have h6 := congrArg (fun l : List Char => (List.reverse l).take 6) hd
    cases c <;> cases c' <;>
      simp [Col.str, List.reverse_append, List.take_append] at h6 ⊢
  subst hc
  refine ⟨?_, rfl⟩
  have hu : u.data = u'.data := List.append_cancel_right hd
  cases u; cases u'
  exact congrArg String.mk hu

/-! ## Sorting lemmas -/

theorem insertLe_perm (le : α → α → Bool) (a : α) (l : List α) :
    (insertLe le a l).Perm (a :: l) := by
  induction l with
  | nil => simp [insertLe]
  | cons b bs ih =>
    by_cases h : le a b
    · simp [insertLe, h]
    · simp only [insertLe, h, if_false, Bool.false_eq_true]
      exact (ih.cons b).trans (List.Perm.swap a b bs)

theorem sortLe_perm (le : α → α → Bool) (l : List α) : (sortLe le l).Perm l := by
  induction l with
  | nil => simp [sortLe]
  | cons a as ih =>
    exact ((insertLe_perm le a (sortLe le as)).trans (ih.cons a))

theorem insertLe_pairwise (le : α → α → Bool)
    (htr : ∀ x y z, le x y = true → le y z = true → le x z = true)
    (hto : ∀ x y, le x y = true ∨ le y x = true)
    (a : α) (l : List α) (h : l.Pairwise fun x y => le x y = true) :
    (insertLe le a l).Pairwise fun x y => le x y = true := by
  induction l with
  | nil => simp [insertLe]
  | cons b bs ih =>
    rcases List.pairwise_cons.mp h with ⟨hb, hbs⟩
    by_cases hab : le a b = true
    · unfold insertLe
      rw [if_pos hab]
      refine List.pairwise_cons.mpr ⟨?_, h⟩
      intro x hx
      rcases List.mem_cons.mp hx with hx | hx
      · rw [hx]; exact hab
      · exact htr a b x hab (hb x hx)
    · have hba : le b a = true := (hto a b).resolve_left hab
      unfold insertLe
      rw [if_neg hab]
      refine List.pairwise_cons.mpr ⟨?_, ih hbs⟩
      intro x hx
      rcases List.mem_cons.mp ((insertLe_perm le a bs).mem_iff.mp hx) with hx | hx
      · rw [hx]; exact hba
      · exact hb x hx

theorem sortLe_pairwise (le : α → α → Bool)
    (htr : ∀ x y z, le x y = true → le y z = true → le x z = true)
    (hto : ∀ x y, le x y = true ∨ le y x = true)
    (l : List α) : (sortLe le l).Pairwise fun x y => le x y = true := by
  induction l with
  | nil => simp [sortLe]
  | cons a as ih => exact insertLe_pairwise le htr hto a _ ih

/-! ## collectE lemmas -/

theorem collectE_error_mem {l : List (Except Err α)} {e : Err}
    (h : collectE l = .error e) : Except.error e ∈ l := by
  induction l with
  | nil => simp [collectE] at h
  | cons x rest ih =>
    cases x with
    | error e' =>
      simp only [collectE] at h
      cases h
      exact List.mem_cons_self _ _
    | ok a =>
      simp only [collectE] at h
      cases hr : collectE rest with
      | error e' =>
        rw [hr] at h
        simp [Except.map] at h
        cases h
        exact List.mem_cons_of_mem _ (ih hr)
      | ok as' => rw [hr] at h; simp [Except.map] at h

/-! ## Refresh pipeline lemmas -/

theorem colName_ne_of_col {u u' : String} {c c' : Col} (h : c ≠ c') :
    colName u c ≠ colName u' c' :=
  fun he => h (colName_inj he).2

theorem colName_ne_of_user {u u' : String} {c c' : Col} (h : u ≠ u') :
    colName u c ≠ colName u' c' :=
  fun he => h (colName_inj he).1

/-- The worker outcome of one feed, as a function of the collaborator
alone. -/
def envOutcome (env : FetchEnv) (f : Feed) : Except Err Unit :=
  match env f.url with
  | .error e => .error e
  | .ok _ => .ok ()

/-- The health-updated feed record the fan-out phase persists for the feed
at batch position `j`. -/
def healthUpdate (tD : Nat → Int) (env : FetchEnv) (j : Nat) (f : Feed) : Feed :=
  { f with last_fetch_time := tD j, last_error := workerErr (envOutcome env f) }

theorem fetch_feed_fst (env : FetchEnv) (now : Int) (db : Db) (u : String) (f : Feed) :
    (fetch_feed env now db u f).1 = envOutcome env f := by
  unfold fetch_feed envOutcome
  cases env f.url <;> rfl

theorem tree_articleInsert_self (db : Db) (u : String) (a : Article) :
    (Article.insert db u a).tree (colName u .articles)
      = treeInsert (db.tree (colName u .articles)) (utf8Str a.id) (serArticle a) :=
  tree_updTree_self _ _ _

theorem tree_articleInsert_ne (db : Db) (u : String) (a : Article) (n : String)
    (h : n ≠ colName u .articles) : (Article.insert db u a).tree n = db.tree n :=
  tree_updTree_ne _ _ _ _ h

theorem tree_feedInsert_self (db : Db) (u : String) (f : Feed) :
    (Feed.insert db u f).tree (colName u .feeds)
      = treeInsert (db.tree (colName u .feeds)) (serLE 8 f.id) (serFeed f) :=
  tree_updTree_self _ _ _

theorem tree_feedInsert_ne (db : Db) (u : String) (f : Feed) (n : String)
    (h : n ≠ colName u .feeds) : (Feed.insert db u f).tree n = db.tree n :=
  tree_updTree_ne _ _ _ _ h

theorem tree_fetchStep_ne (now : Int) (u : String) (fid : Nat) (db : Db) (e : Entry)
    (n : String) (h : n ≠ colName u .articles) :
    (fetchStep now u fid db e).tree n = db.tree n :=
  tree_articleInsert_ne _ _ _ _ h

theorem tree_fetchEntries_ne (now : Int) (u : String) (fid : Nat) (es : List Entry)
    (db : Db) (n : String) (h : n ≠ colName u .articles) :
    (fetchEntries now u fid db es).tree n = db.tree n := by
  induction es generalizing db with
  | nil => rfl
  | cons e es ih =>
    exact (ih (fetchStep now u fid db e)).trans (tree_fetchStep_ne now u fid db e n h)

theorem tree_fetch_feed_ne (env : FetchEnv) (now : Int) (db : Db) (u : String) (f : Feed)
    (n : String) (h : n ≠ colName u .articles) :
    ((fetch_feed env now db u f).2).tree n = db.tree n := by
  unfold fetch_feed
  cases env f.url with
  | error e => rfl
  | ok es => exact tree_fetchEntries_ne now u f.id es db n h

theorem tree_feedStep_ne (env : FetchEnv) (tF tD : Nat → Int) (u : String) (k : Nat)
    (db : Db) (f : Feed) (n : String) (h1 : n ≠ colName u .feeds)
    (h2 : n ≠ colName u .articles) :
    (feedStep env tF tD u k db f).tree n = db.tree n := by
  unfold feedStep
  exact (tree_feedInsert_ne _ _ _ _ h1).trans (tree_fetch_feed_ne env (tF k) db u f n h2)

theorem feedStep_feeds_self (env : FetchEnv) (tF tD : Nat → Int) (u : String) (k : Nat)
    (db : Db) (f : Feed) :
    treeGet ((feedStep env tF tD u k db f).tree (colName u .feeds)) (serLE 8 f.id)
      = some (serFeed (healthUpdate tD env k f)) := by
  unfold feedStep
  rw [tree_feedInsert_self]
  have hid : ({ f with last_fetch_time := tD k, last_error := workerErr (fetch_feed env (tF k) db u f).1 } : Feed).id = f.id := rfl
  rw [hid, treeGet_insert_self, fetch_feed_fst]
  rfl

theorem feedStep_feeds_other (env : FetchEnv) (tF tD : Nat → Int) (u : String) (k : Nat)
    (db : Db) (f : Feed) (key : List Nat) (h : key ≠ serLE 8 f.id) :
    treeGet ((feedStep env tF tD u k db f).tree (colName u .feeds)) key
      = treeGet (db.tree (colName u .feeds)) key := by
  unfold feedStep
  rw [tree_feedInsert_self]
  have hid : ({ f with last_fetch_time := tD k, last_error := workerErr (fetch_feed env (tF k) db u f).1 } : Feed).id = f.id := rfl
  rw [hid, treeGet_insert_ne _ _ _ _ h]
  rw [tree_fetch_feed_ne env (tF k) db u f _ (colName_ne_of_col (by simp))]

theorem tree_feedPhase_ne (env : FetchEnv) (tF tD : Nat → Int) (u : String)
    (fs : List Feed) (k : Nat) (db : Db) (n : String) (h1 : n ≠ colName u .feeds)
    (h2 : n ≠ colName u .articles) :
    ((feedPhase env tF tD u k db fs).1).tree n = db.tree n := by
  induction fs generalizing k db with
  | nil => rfl
  | cons f fs ih =>
    exact (ih (k + 1) (feedStep env tF tD u k db f)).trans
      (tree_feedStep_ne env tF tD u k db f n h1 h2)

theorem feedPhase_trace (env : FetchEnv) (tF tD : Nat → Int) (u : String)
    (fs : List Feed) (k : Nat) (db : Db) :
    (feedPhase env tF tD u k db fs).2 = fs.map fun f => Event.feedDone f.id := by
  induction fs generalizing k db with
  | nil => rfl
  | cons f fs ih =>
    show Event.feedDone f.id :: (feedPhase env tF tD u (k + 1) _ fs).2 = _
    rw [ih]
    rfl

/-- The feeds tree after the fan-out phase, at a key none of the batch's
feeds serialize to: unchanged. -/
theorem feedPhase_feeds_other (env : FetchEnv) (tF tD : Nat → Int) (u : String)
    (fs : List Feed) (k : Nat) (db : Db) (key : List Nat)
    (hk : ∀ f ∈ fs, serLE 8 f.id ≠ key) :
    treeGet (((feedPhase env tF tD u k db fs).1).tree (colName u .feeds)) key
      = treeGet (db.tree (colName u .feeds)) key := by
  induction fs generalizing k db with
  | nil => rfl
  | cons f fs ih =>
    have h1 := ih (k + 1) (feedStep env tF tD u k db f)
      fun g hg => hk g (List.mem_cons_of_mem _ hg)
    rw [show ((feedPhase env tF tD u k db (f :: fs)).1)
        = (feedPhase env tF tD u (k + 1) (feedStep env tF tD u k db f) fs).1 from rfl]
    rw [h1]
    exact feedStep_feeds_other env tF tD u k db f key
      fun he => hk f (List.mem_cons_self f fs) he.symm

/-- The feeds tree after the fan-out phase, at the key of the batch feed at
position `i`: exactly the health-updated record — `last_fetch_time` from
that attempt's clock reading and `last_error` mirroring the worker
outcome. -/
theorem feedPhase_feeds_at (env : FetchEnv) (tF tD : Nat → Int) (u : String)
    (fs : List Feed) (k : Nat) (db : Db)
    (hpw : fs.Pairwise fun f g => serLE 8 f.id ≠ serLE 8 g.id)
    (i : Nat) (hi : i < fs.length) :
    treeGet (((feedPhase env tF tD u k db fs).1).tree (colName u .feeds))
        (serLE 8 (fs.get ⟨i, hi⟩).id)
      = some (serFeed (healthUpdate tD env (k + i) (fs.get ⟨i, hi⟩))) := by
  induction fs generalizing k db i with
  | nil => exact absurd hi (by simp)
  | cons f fs ih =>
    rcases List.pairwise_cons.mp hpw with ⟨hf, hfs⟩
    cases i with
    | zero =>
      show treeGet (((feedPhase env tF tD u (k + 1) (feedStep env tF tD u k db f) fs).1).tree
          (colName u .feeds)) (serLE 8 f.id) = _
      rw [feedPhase_feeds_other env tF tD u fs (k + 1) _ _ fun g hg => (hf g hg).symm]
      exact feedStep_feeds_self env tF tD u k db f
    | succ i =>
      have h2 := ih (k + 1) (feedStep env tF tD u k db f) hfs i (Nat.lt_of_succ_lt_succ hi)
      rw [show k + 1 + i = k + (i + 1) from by omega] at h2
      exact h2

/-! ## Article-tree lemmas for the fan-out phase -/

theorem fetchStep_articles_self (now : Int) (u : String) (fid : Nat) (db : Db) (e : Entry) :
    treeGet ((fetchStep now u fid db e).tree (colName u .articles)) (utf8Str e.id)
      = some (serArticle (reconcileArticle fid now (prevLookup db u e.id) e)) := by
  unfold fetchStep
  rw [tree_articleInsert_self]
  rw [show (reconcileArticle fid now (prevLookup db u e.id) e).id = e.id from rfl]
  exact treeGet_insert_self _ _ _

theorem fetchStep_articles_other (now : Int) (u : String) (fid : Nat) (db : Db) (e : Entry)
    (key : List Nat) (h : key ≠ utf8Str e.id) :
    treeGet ((fetchStep now u fid db e).tree (colName u .articles)) key
      = treeGet (db.tree (colName u .articles)) key := by
  unfold fetchStep
  rw [tree_articleInsert_self]
  rw [show (reconcileArticle fid now (prevLookup db u e.id) e).id = e.id from rfl]
  exact treeGet_insert_ne _ _ _ _ h

theorem tree_fetchEntries_other (now : Int) (u : String) (fid : Nat) (es : List Entry)
    (db : Db) (key : List Nat) (hk : ∀ e ∈ es, utf8Str e.id ≠ key) :
    treeGet ((fetchEntries now u fid db es).tree (colName u .articles)) key
      = treeGet (db.tree (colName u .articles)) key := by
  induction es generalizing db with
  | nil => rfl
  | cons e es ih =>
    rw [show fetchEntries now u fid db (e :: es)
        = fetchEntries now u fid (fetchStep now u fid db e) es from rfl]
    rw [ih (fetchStep now u fid db e) fun e' he' => hk e' (List.mem_cons_of_mem _ he')]
    exact fetchStep_articles_other now u fid db e key
      fun he => hk e (List.mem_cons_self e es) he.symm

/-- After the entry loop, each entry of the batch (with pairwise distinct
serialized ids) is stored: its record is the entry's resolved fields with
some reconciled publish time. -/
theorem fetchEntries_mem (now : Int) (u : String) (fid : Nat) (es : List Entry)
    (db : Db) (e : Entry)
    (hpw : es.Pairwise fun a b => utf8Str a.id ≠ utf8Str b.id) (he : e ∈ es) :
    ∃ p, treeGet ((fetchEntries now u fid db es).tree (colName u .articles)) (utf8Str e.id)
      = some (serArticle (entryArticle fid e p)) := by
  induction es generalizing db with
  | nil => exact absurd he (by simp)
  | cons a es ih =>
    rcases List.pairwise_cons.mp hpw with ⟨ha, has⟩
    rw [show fetchEntries now u fid db (a :: es)
        = fetchEntries now u fid (fetchStep now u fid db a) es from rfl]
    rcases List.mem_cons.mp he with he | he
    · subst he
      refine ⟨(e.published.orElse fun _ => (prevLookup db u e.id).map fun x => x.published).getD
        now, ?_⟩
      rw [tree_fetchEntries_other now u fid es _ _ fun e' he' => (ha e' he').symm]
      exact fetchStep_articles_self now u fid db e
    · exact ih (fetchStep now u fid db a) has he

/-- All entries the collaborator supplies for a batch, in batch order
(failed feeds supply none). -/
def entriesOf (env : FetchEnv) : List Feed → List Entry
  | [] => []
  | f :: fs =>
    (match env f.url with
     | .ok es => es
     | .error _ => []) ++ entriesOf env fs

theorem feedPhase_articles_other (env : FetchEnv) (tF tD : Nat → Int) (u : String)
    (fs : List Feed) (k : Nat) (db : Db) (key : List Nat)
    (hk : ∀ e ∈ entriesOf env fs, utf8Str e.id ≠ key) :
    treeGet (((feedPhase env tF tD u k db fs).1).tree (colName u .articles)) key
      = treeGet (db.tree (colName u .articles)) key := by
  induction fs generalizing k db with
  | nil => rfl
  | cons f fs ih =>
    have hrest : ∀ e ∈ entriesOf env fs, utf8Str e.id ≠ key := by
      intro e hme
      exact hk e (by rw [entriesOf]; exact List.mem_append_right _ hme)
    rw [show ((feedPhase env tF tD u k db (f :: fs)).1)
        = (feedPhase env tF tD u (k + 1) (feedStep env tF tD u k db f) fs).1 from rfl]
    rw [ih (k + 1) (feedStep env tF tD u k db f) hrest]
    show treeGet ((Feed.insert (fetch_feed env (tF k) db u f).2 u _).tree (colName u .articles))
      key = _
    rw [tree_feedInsert_ne _ _ _ _ (colName_ne_of_col (by simp))]
    unfold fetch_feed
    cases henv : env f.url with
    | error e => rfl
    | ok es =>
      refine tree_fetchEntries_other (tF k) u f.id es db key fun e hme => ?_
      refine hk e ?_
      rw [entriesOf, henv]
      exact List.mem_append_left _ hme

/-- After the fan-out phase, every entry of every successfully fetched feed
in the batch is stored under its id (entry article-id keys pairwise
distinct across the batch): its record carries the entry's resolved fields,
the owning feed's id, and some reconciled publish time. -/
theorem feedPhase_articles_mem (env : FetchEnv) (tF tD : Nat → Int) (u : String)
    (fs : List Feed) (k : Nat) (db : Db)
    (hpw : (entriesOf env fs).Pairwise fun a b => utf8Str a.id ≠ utf8Str b.id)
    (j : Nat) (hj : j < fs.length) (es : List Entry)
    (henv : env ((fs.get ⟨j, hj⟩).url) = .ok es) (e : Entry) (he : e ∈ es) :
    ∃ p, treeGet (((feedPhase env tF tD u k db fs).1).tree (colName u .articles))
        (utf8Str e.id)
      = some (serArticle (entryArticle (fs.get ⟨j, hj⟩).id e p)) := by
  induction fs generalizing k db j with
  | nil => exact absurd hj (by simp)
  | cons f fs ih =>
    have hpw' : ((match env f.url with
        | .ok es => es
        | .error _ => []) ++ entriesOf env fs).Pairwise
          fun a b => utf8Str a.id ≠ utf8Str b.id := by
      rw [entriesOf] at hpw; exact hpw
    rcases List.pairwise_append.mp hpw' with ⟨hleft, hright, hcross⟩
    rw [show ((feedPhase env tF tD u k db (f :: fs)).1)
        = (feedPhase env tF tD u (k + 1) (feedStep env tF tD u k db f) fs).1 from rfl]
    cases j with
    | zero =>
      have henv' : env f.url = .ok es := henv
      have hisol : ∀ e' ∈ entriesOf env fs, utf8Str e'.id ≠ utf8Str e.id := by
        intro e' hme'
        have hee : e ∈ (match env f.url with
            | .ok es => es
            | .error _ => []) := by rw [henv']; exact he
        exact (hcross e hee e' hme').symm
      rw [feedPhase_articles_other env tF tD u fs (k + 1) _ _ hisol]
      show ∃ p, treeGet ((Feed.insert (fetch_feed env (tF k) db u f).2 u _).tree
        (colName u .articles)) (utf8Str e.id) = _
      rw [tree_feedInsert_ne _ _ _ _ (colName_ne_of_col (by simp))]
      unfold fetch_feed
      rw [henv']
      have hleft' : es.Pairwise fun a b => utf8Str a.id ≠ utf8Str b.id := by
        rw [henv'] at hleft; exact hleft
      exact fetchEntries_mem (tF k) u f.id es db e hleft' he
    | succ j =>
      exact ih (k + 1) (feedStep env tF tD u k db f) hright j
        (Nat.lt_of_succ_lt_succ hj) henv

/-! ## Result-shape and rebuild lemmas -/

theorem feedGetAll_error {db : Db} {u : String} {e : Err}
    (h : Feed.get_all db u = .error e) : e = .encode "invalid data" := by
  have hm := collectE_error_mem h
  rcases List.mem_map.mp hm with ⟨p, _, hp⟩
  cases hpf : parseFeed p.2 <;> rw [hpf] at hp
  · cases hp; rfl
  · cases hp

theorem articleGetAll_error {db : Db} {u : String} {e : Err}
    (h : Article.get_all db u = .error e) : e = .encode "invalid data" := by
  have hm := collectE_error_mem h
  rcases List.mem_map.mp hm with ⟨p, _, hp⟩
  cases hpf : parseArticle p.2 <;> rw [hpf] at hp
  · cases hp; rfl
  · cases hp

theorem tree_createIndex_ne (db : Db) (u : String) (n : String)
    (h : n ≠ colName u .index) :
    ((AppUser.create_search_index db u).2).tree n = db.tree n := by
  unfold AppUser.create_search_index
  cases Article.get_all db u with
  | error e => rfl
  | ok arts => exact tree_updTree_ne _ _ _ _ h

theorem createIndex_fst (db : Db) (u : String) :
    (AppUser.create_search_index db u).1 = .ok ()
      ∨ (AppUser.create_search_index db u).1 = .error (.encode "invalid data") := by
  unfold AppUser.create_search_index
  cases hga : Article.get_all db u with
  | error e => right; rw [articleGetAll_error hga]
  | ok arts => left; rfl

theorem fetch_all_eq (env : FetchEnv) (tF tD : Nat → Int) (db : Db) (u : String)
    (feeds : List Feed) (hfeeds : Feed.get_all db u = .ok feeds) :
    fetch_all_feeds env tF tD db u =
      ((AppUser.create_search_index (feedPhase env tF tD u 0 db feeds).1 u).1,
       (AppUser.create_search_index (feedPhase env tF tD u 0 db feeds).1 u).2,
       (feedPhase env tF tD u 0 db feeds).2 ++ [.indexRebuilt]) := by
  unfold fetch_all_feeds
  rw [hfeeds]

theorem fetch_all_result_shape (env : FetchEnv) (tF tD : Nat → Int) (db : Db) (u : String) :
    (fetch_all_feeds env tF tD db u).1 = .ok ()
      ∨ (fetch_all_feeds env tF tD db u).1 = .error (.encode "invalid data") := by
  unfold fetch_all_feeds
  cases hg : Feed.get_all db u with
  | error e => right; rw [feedGetAll_error hg]
  | ok feeds => exact createIndex_fst _ u

/-! ## Settled claims -/

/-- The empty store. -/
def emptyDb : Db := ⟨[], 0⟩

/-- The article stored before the C1 refresh, with publish time 100. -/
def c1Prior : Article := ⟨"a1", 7, 100, none, "t", "s", "c"⟩

/-- A store already holding `c1Prior` (under `Article::insert`'s raw key). -/
def c1Db : Db := Article.insert emptyDb "alice" c1Prior

/-- A collaborator returning one re-fetched entry with the same id `a1` and
no publish date. -/
def c1Env : FetchEnv := fun _ => .ok [⟨"a1", none, none, none, [], none⟩]

/-- The feed being refreshed in the C1 scenario. -/
def c1Feed : Feed := ⟨7, "http://feed", "f", none, 0, none⟩

/-- Claim C1, demonstration of the violation: the store holds article `a1`
with publish time 100; refreshing an entry with id `a1` and no publish date
at wall-clock time 999 stores publish time 999, not the preserved 100 — the
prior-article lookup (`Article::get_id`) addresses a different key than
`Article::insert` wrote, so it finds nothing. -/
theorem c1_published_not_preserved :
    treeGet (c1Db.tree (colName "alice" .articles)) (utf8Str "a1") = some (serArticle c1Prior)
      ∧ Article.get_id c1Db "alice" "a1" = .ok none
      ∧ (fetch_feed c1Env 999 c1Db "alice" c1Feed).1 = .ok ()
      ∧ treeGet (((fetch_feed c1Env 999 c1Db "alice" c1Feed).2).tree (colName "alice" .articles))
            (utf8Str "a1")
          = some (serArticle ⟨"a1", 7, 999, none, "", "", ""⟩) :=
  ⟨rfl, rfl, rfl, rfl⟩

/-- The article inserted in the C2 scenario. -/
def c2Article : Article := ⟨"a1", 7, 100, none, "t", "s", "c"⟩

/-- Claim C2, demonstration of the violation: after `Article::insert`,
`Article::get_id` on the same id returns `None` rather than the stored
article, because insert keys by the raw UTF-8 id bytes while get keys by
the bincode (length-prefixed) serialization — two different keys. -/
theorem c2_get_after_insert_none :
    Article.get_id (Article.insert emptyDb "alice" c2Article) "alice" c2Article.id = .ok none
      ∧ utf8Str c2Article.id ≠ serStr c2Article.id :=
  ⟨rfl, by decide⟩

/-- The feed stored before the C3 patch. -/
def c3Feed : Feed := ⟨0, "http://old", "old", none, 0, none⟩

/-- A store already holding `c3Feed`. -/
def c3Db : Db := Feed.insert emptyDb "alice" c3Feed

/-- The patch supplying a new name for the stored feed id 0. -/
def c3Patch : PatchFeed := ⟨0, none, some "newname", none⟩

/-- Claim C3, demonstration of the violation: the feed with id 0 is stored,
yet `PatchFeed::apply` for that id fails with the NotFound error (its
`Feed::get_id` lookup deserializes the stored value as `Option<Feed>` and
reads the id's low byte 0 as the `None` tag) — and the source contains no
write-back at all, as the model's state-free result type records. -/
theorem c3_patch_apply_broken :
    treeGet (c3Db.tree (colName "alice" .feeds)) (serLE 8 0) = some (serFeed c3Feed)
      ∧ PatchFeed.apply c3Patch c3Db "alice" = .error (.notFound "feed") :=
  ⟨rfl, rfl⟩

/-- The feed inserted in the C4 scenario (id 0). -/
def c4Feed : Feed := ⟨0, "http://a", "n", none, 0, none⟩

/-- The feed inserted in the C4 scenario with id 2. -/
def c4Feed2 : Feed := ⟨2, "http://a", "n", none, 0, none⟩

/-- Claim C4, demonstration of the violation: after `Feed::insert`,
`Feed::get_id` on the same id does not return the stored feed — it
deserializes the stored `Feed` bytes as `Option<Feed>`, so the id's low
byte is read as the option tag: 0 parses as `None`, 2 is an invalid tag
(an error).  Lookup of a never-inserted id does return `None`. -/
theorem c4_feed_get_after_insert :
    Feed.get_id (Feed.insert emptyDb "alice" c4Feed) "alice" c4Feed.id = .ok none
      ∧ Feed.get_id (Feed.insert emptyDb "alice" c4Feed2) "alice" c4Feed2.id
          = .error (.encode "invalid data")
      ∧ Feed.get_id emptyDb "alice" 9 = .ok none :=
  ⟨rfl, rfl, rfl⟩

/-- The feed record `NewFeed::insert` builds for the freshly generated
id. -/
def newFeedRecord (nextId : Nat) (nf : NewFeed) : Feed :=
  { id := nextId, url := nf.url, name := nf.name.getD "", scraper := nf.scraper,
    last_fetch_time := dtMinUtc, last_error := none }

/-- Claim C10: every feed created through `NewFeed::insert` is stored under
the freshly generated id (the `generate_id` counter value, which is then
advanced) with `last_error` cleared, `last_fetch_time` = `MIN_UTC`, and
name defaulting to the empty string when none was supplied. -/
theorem new_feed_defaults (db : Db) (u : String) (nf : NewFeed) :
    (NewFeed.insert nf db u).1 = .ok ()
      ∧ treeGet (((NewFeed.insert nf db u).2).tree (colName u .feeds)) (serLE 8 db.nextId)
          = some (serFeed (newFeedRecord db.nextId nf))
      ∧ ((NewFeed.insert nf db u).2).nextId = db.nextId + 1
      ∧ (newFeedRecord db.nextId nf).last_error = none
      ∧ (newFeedRecord db.nextId nf).last_fetch_time = dtMinUtc
      ∧ (nf.name = none → (newFeedRecord db.nextId nf).name = "") := by
  refine ⟨rfl, ?_, rfl, rfl, rfl, fun h => by rw [newFeedRecord, h]; rfl⟩
  show treeGet ((Feed.insert { db with nextId := db.nextId + 1 } u
    (newFeedRecord db.nextId nf)).tree (colName u .feeds)) (serLE 8 db.nextId) = _
  rw [tree_feedInsert_self]
  have hid : (newFeedRecord db.nextId nf).id = db.nextId := rfl
  rw [hid]
  exact treeGet_insert_self _ _ _

/-- The `search` route at the default request (no term, no feed filter, no
order-by, no direction): sort ascending by `published`, then reverse. -/
theorem searchRoute_default (db : Db) (u : String) (arts : List Article)
    (hga : Article.get_all db u = .ok arts) :
    searchRoute db u ⟨none, none, none, none⟩
      = .ok (((sortLe (fun a b : Article => decide (a.published ≤ b.published))
          (arts.filter (keepArticle none none))).reverse).map fun a => a.id) := by
  unfold searchRoute
  rw [hga]
  rfl

/-- Claim C9: a search/listing request supplying no order-by and no
direction returns the article ids sorted by publish time in descending
order — the returned list is the id projection of a permutation of the
corpus that is pairwise descending by `published`. -/
theorem search_default_descending (db : Db) (u : String) (arts : List Article)
    (hga : Article.get_all db u = .ok arts) :
    ∃ sorted : List Article,
      searchRoute db u ⟨none, none, none, none⟩ = .ok (sorted.map fun a => a.id)
        ∧ sorted.Perm arts
        ∧ sorted.Pairwise fun a b => b.published ≤ a.published := by
  have hfilter : arts.filter (keepArticle none none) = arts :=
    List.filter_eq_self.mpr fun a _ => rfl
  refine ⟨(sortLe (fun a b : Article => decide (a.published ≤ b.published)) arts).reverse,
    ?_, ?_, ?_⟩
  · rw [searchRoute_default db u arts hga, hfilter]
  · exact (List.reverse_perm _).trans (sortLe_perm _ arts)
  · rw [List.pairwise_reverse]
    have hs := sortLe_pairwise (fun a b : Article => decide (a.published ≤ b.published))
      (fun x y z hxy hyz => by
        simp only [decide_eq_true_eq] at hxy hyz ⊢
        exact le_trans hxy hyz)
      (fun x y => by
        rcases Int.le_total x.published y.published with h | h
        · left; simpa using h
        · right; simpa using h)
      arts
    exact hs.imp fun hab => by simpa using hab

/-- Claim C6: after `fetch_all_feeds`, the stored record of the batch feed
at position `k` is exactly its health update for that one attempt —
`last_fetch_time` set (once) to that attempt's clock reading, which is at
or after the batch start whenever the wall clock reads at or after the
start, and `last_error` equal to the worker's error message exactly when
the worker failed and `none` when it succeeded — persisted regardless of
the worker outcome. -/
theorem refresh_health_update (env : FetchEnv) (tF tD : Nat → Int) (db : Db) (u : String)
    (feeds : List Feed) (start : Int)
    (hfeeds : Feed.get_all db u = .ok feeds)
    (hpw : feeds.Pairwise fun f g => serLE 8 f.id ≠ serLE 8 g.id)
    (hclock : ∀ j, start ≤ tD j)
    (k : Nat) (hk : k < feeds.length) :
    treeGet (((fetch_all_feeds env tF tD db u).2.1).tree (colName u .feeds))
        (serLE 8 (feeds.get ⟨k, hk⟩).id)
      = some (serFeed (healthUpdate tD env k (feeds.get ⟨k, hk⟩)))
      ∧ (healthUpdate tD env k (feeds.get ⟨k, hk⟩)).last_fetch_time = tD k
      ∧ start ≤ tD k
      ∧ (healthUpdate tD env k (feeds.get ⟨k, hk⟩)).last_error
          = workerErr (envOutcome env (feeds.get ⟨k, hk⟩)) := by
  refine ⟨?_, rfl, hclock k, rfl⟩
  have h1 := feedPhase_feeds_at env tF tD u feeds 0 db hpw k hk
  rw [Nat.zero_add] at h1
  rw [fetch_all_eq env tF tD db u feeds hfeeds]
  show treeGet (((AppUser.create_search_index (feedPhase env tF tD u 0 db feeds).1 u).2).tree
    (colName u .feeds)) (serLE 8 (feeds.get ⟨k, hk⟩).id) = _
  rw [tree_createIndex_ne _ _ _ (colName_ne_of_col (by simp))]
  exact h1

/-- Claim C7: in every refresh, the index rebuild comes strictly after all
per-feed events (the trace is the per-feed completions in batch order
followed by the single rebuild event), and a failure of the rebuild itself
is returned through the refresh's own error channel. -/
theorem refresh_rebuild_barrier (env : FetchEnv) (tF tD : Nat → Int) (db : Db) (u : String)
    (feeds : List Feed) (hfeeds : Feed.get_all db u = .ok feeds) :
    (fetch_all_feeds env tF tD db u).2.2
        = (feeds.map fun f => Event.feedDone f.id) ++ [Event.indexRebuilt]
      ∧ (∀ (i j fid : Nat),
          ((fetch_all_feeds env tF tD db u).2.2)[i]? = some (Event.feedDone fid) →
          ((fetch_all_feeds env tF tD db u).2.2)[j]? = some Event.indexRebuilt → i < j)
      ∧ (∀ e, (AppUser.create_search_index (feedPhase env tF tD u 0 db feeds).1 u).1 = .error e →
          (fetch_all_feeds env tF tD db u).1 = .error e) := by
  rw [fetch_all_eq env tF tD db u feeds hfeeds]
  have htr : (feedPhase env tF tD u 0 db feeds).2 ++ [Event.indexRebuilt]
      = (feeds.map fun f => Event.feedDone f.id) ++ [Event.indexRebuilt] := by
    rw [feedPhase_trace]
  refine ⟨htr, ?_, fun e he => he⟩
  intro i j fid hi hj
  rw [show ((AppUser.create_search_index (feedPhase env tF tD u 0 db feeds).1 u).1,
      (AppUser.create_search_index (feedPhase env tF tD u 0 db feeds).1 u).2,
      (feedPhase env tF tD u 0 db feeds).2 ++ [Event.indexRebuilt]).2.2
      = (feedPhase env tF tD u 0 db feeds).2 ++ [Event.indexRebuilt] from rfl, htr] at hi hj
  rw [List.getElem?_append] at hi hj
  by_cases hjL : j < (feeds.map fun f => Event.feedDone f.id).length
  · exfalso
    rw [if_pos hjL] at hj
    rw [List.getElem?_map] at hj
    cases hx : (feeds[j]?) <;> rw [hx] at hj <;> simp at hj
  · by_cases hiL : i < (feeds.map fun f => Event.feedDone f.id).length
    · omega
    · exfalso
      rw [if_neg hiL] at hi
      cases hd : i - (feeds.map fun f => Event.feedDone f.id).length with
      | zero => rw [hd] at hi; simp at hi
      | succ m => rw [hd] at hi; simp at hi

/-- Claim C5: per-feed failure isolation.  When the worker for the batch
feed at position `k` fails, that error is recorded as data on the failing
feed's stored record; the refresh result itself is never that fetch/parse
error (it is success, or a storage-deserialization error); and every
sibling feed whose worker succeeded is still fully processed — its record
persisted with `last_error` cleared and every one of its entries upserted
into the article store. -/
theorem refresh_failure_isolation (env : FetchEnv) (tF tD : Nat → Int) (db : Db) (u : String)
    (feeds : List Feed) (k : Nat) (hk : k < feeds.length) (e : Err)
    (hfeeds : Feed.get_all db u = .ok feeds)
    (henvk : env ((feeds.get ⟨k, hk⟩).url) = .error e)
    (hpw : feeds.Pairwise fun f g => serLE 8 f.id ≠ serLE 8 g.id)
    (hak : (entriesOf env feeds).Pairwise fun a b => utf8Str a.id ≠ utf8Str b.id) :
    treeGet (((fetch_all_feeds env tF tD db u).2.1).tree (colName u .feeds))
        (serLE 8 (feeds.get ⟨k, hk⟩).id)
      = some (serFeed (healthUpdate tD env k (feeds.get ⟨k, hk⟩)))
      ∧ (healthUpdate tD env k (feeds.get ⟨k, hk⟩)).last_error = some e.msg
      ∧ ((fetch_all_feeds env tF tD db u).1 = .ok ()
          ∨ (fetch_all_feeds env tF tD db u).1 = .error (.encode "invalid data"))
      ∧ (∀ (j : Nat) (hj : j < feeds.length) (es : List Entry),
          env ((feeds.get ⟨j, hj⟩).url) = .ok es →
            treeGet (((fetch_all_feeds env tF tD db u).2.1).tree (colName u .feeds))
                (serLE 8 (feeds.get ⟨j, hj⟩).id)
              = some (serFeed (healthUpdate tD env j (feeds.get ⟨j, hj⟩)))
            ∧ (healthUpdate tD env j (feeds.get ⟨j, hj⟩)).last_error = none
            ∧ ∀ a ∈ es, ∃ p,
                treeGet (((fetch_all_feeds env tF tD db u).2.1).tree (colName u .articles))
                    (utf8Str a.id)
                  = some (serArticle (entryArticle (feeds.get ⟨j, hj⟩).id a p))) := by
  have hfinal : ∀ (m : Nat) (hm : m < feeds.length),
      treeGet (((fetch_all_feeds env tF tD db u).2.1).tree (colName u .feeds))
          (serLE 8 (feeds.get ⟨m, hm⟩).id)
        = some (serFeed (healthUpdate tD env m (feeds.get ⟨m, hm⟩))) := by
    intro m hm
    have h1 := feedPhase_feeds_at env tF tD u feeds 0 db hpw m hm
    rw [Nat.zero_add] at h1
    rw [fetch_all_eq env tF tD db u feeds hfeeds]
    show treeGet (((AppUser.create_search_index (feedPhase env tF tD u 0 db feeds).1 u).2).tree
      (colName u .feeds)) (serLE 8 (feeds.get ⟨m, hm⟩).id) = _
    rw [tree_createIndex_ne _ _ _ (colName_ne_of_col (by simp))]
    exact h1
  refine ⟨hfinal k hk, ?_, fetch_all_result_shape env tF tD db u, ?_⟩
  · show workerErr (envOutcome env (feeds.get ⟨k, hk⟩)) = some e.msg
    unfold envOutcome
    rw [henvk]
    rfl
  · intro j hj es henvj
    refine ⟨hfinal j hj, ?_, ?_⟩
    · show workerErr (envOutcome env (feeds.get ⟨j, hj⟩)) = none
      unfold envOutcome
      rw [henvj]
      rfl
    · intro a ha
      rcases feedPhase_articles_mem env tF tD u feeds 0 db hak j hj es henvj a ha with ⟨p, hp⟩
      refine ⟨p, ?_⟩
      rw [fetch_all_eq env tF tD db u feeds hfeeds]
      show treeGet (((AppUser.create_search_index (feedPhase env tF tD u 0 db feeds).1 u).2).tree
        (colName u .articles)) (utf8Str a.id) = _
      rw [tree_createIndex_ne _ _ _ (colName_ne_of_col (by simp))]
      exact hp

/-- Claim C8: cross-tenant noninterference.  For distinct usernames the
three storage namespaces `open_user` resolves are pairwise disjoint; every
repository operation run as `u1` leaves each of `u2`'s trees untouched; and
the output of every repository operation run as `u1` is a function of
`u1`'s own trees alone (so it cannot observe `u2`'s data, colliding ids and
names included). -/
theorem user_namespace_isolation (u1 u2 : String) (h : u1 ≠ u2) :
    (∀ c1 c2 : Col, colName u1 c1 ≠ colName u2 c2)
      ∧ (∀ (op : RepoOp) (db : Db) (c : Col),
          ((runOp op u1 db).1).tree (colName u2 c) = db.tree (colName u2 c))
      ∧ (∀ (op : RepoOp) (db db' : Db),
          (∀ c : Col, db.tree (colName u1 c) = db'.tree (colName u1 c)) →
          (runOp op u1 db).2 = (runOp op u1 db').2) := by
  have hne : ∀ c c' : Col, colName u2 c ≠ colName u1 c' :=
    fun c c' => colName_ne_of_user (Ne.symm h)
  refine ⟨fun c1 c2 => colName_ne_of_user h, ?_, ?_⟩
  · intro op db c
    cases op with
    | newFeed nf => exact tree_feedInsert_ne _ _ _ _ (hne c .feeds)
    | feedInsert f => exact tree_feedInsert_ne _ _ _ _ (hne c .feeds)
    | feedGetId id => rfl
    | feedGetAll => rfl
    | patchApply p => rfl
    | articleInsert a => exact tree_articleInsert_ne _ _ _ _ (hne c .articles)
    | articleGetId id => rfl
    | articleGetAll => rfl
    | indexBuild => exact tree_createIndex_ne _ _ _ (hne c .index)
    | searchTerm t => rfl
    | statusOp => rfl
    | searchList q => rfl
  · intro op db db' hagree
    cases op with
    | newFeed nf => rfl
    | feedInsert f => rfl
    | feedGetId id =>
      show OpOut.feedOpt (Feed.get_id db u1 id) = OpOut.feedOpt (Feed.get_id db' u1 id)
      unfold Feed.get_id
      rw [hagree .feeds]
    | feedGetAll =>
      show OpOut.feeds (Feed.get_all db u1) = OpOut.feeds (Feed.get_all db' u1)
      unfold Feed.get_all
      rw [hagree .feeds]
    | patchApply p =>
      show OpOut.unit (p.apply db u1) = OpOut.unit (p.apply db' u1)
      unfold PatchFeed.apply Feed.get_id
      rw [hagree .feeds]
    | articleInsert a => rfl
    | articleGetId id =>
      show OpOut.articleOpt (Article.get_id db u1 id)
        = OpOut.articleOpt (Article.get_id db' u1 id)
      unfold Article.get_id
      rw [hagree .articles]
    | articleGetAll =>
      show OpOut.articles (Article.get_all db u1) = OpOut.articles (Article.get_all db' u1)
      unfold Article.get_all Article.iter
      rw [hagree .articles]
    | indexBuild =>
      show OpOut.unit (AppUser.create_search_index db u1).1
        = OpOut.unit (AppUser.create_search_index db' u1).1
      have harts : Article.get_all db u1 = Article.get_all db' u1 := by
        unfold Article.get_all Article.iter
        rw [hagree .articles]
      unfold AppUser.create_search_index
      rw [harts]
      cases Article.get_all db' u1 <;> rfl
    | searchTerm t =>
      show OpOut.ids (AppUser.search db u1 t) = OpOut.ids (AppUser.search db' u1 t)
      unfold AppUser.search
      rw [hagree .index]
    | statusOp =>
      show OpOut.status (AppUser.status db u1) = OpOut.status (AppUser.status db' u1)
      unfold AppUser.status Article.get_all Article.iter
      rw [hagree .articles]
    | searchList q =>
      show OpOut.ids (searchRoute db u1 q) = OpOut.ids (searchRoute db' u1 q)
      unfold searchRoute AppUser.search Article.get_all Article.iter
      rw [hagree .index, hagree .articles]

/-! ## Witnesses -/

/-- The three-article corpus of the C9 witness (publish times 100, 300,
200). -/
def w9Arts : List Article :=
  [⟨"jan", 1, 100, none, "", "", ""⟩, ⟨"mar", 1, 300, none, "", "", ""⟩,
   ⟨"feb", 1, 200, none, "", "", ""⟩]

/-- A store holding the C9 witness corpus. -/
def w9Db : Db := w9Arts.foldl (fun d a => Article.insert d "carol" a) emptyDb

/-- Witness for C9 at a concrete three-article corpus. -/
theorem search_default_descending_witness :
    Article.get_all w9Db "carol" = .ok w9Arts
      ∧ ∃ sorted : List Article,
        searchRoute w9Db "carol" ⟨none, none, none, none⟩ = .ok (sorted.map fun a => a.id)
          ∧ sorted.Perm w9Arts
          ∧ sorted.Pairwise fun a b => b.published ≤ a.published :=
  ⟨rfl, search_default_descending w9Db "carol" w9Arts rfl⟩

/-- The single feed of the C6 witness. -/
def w6Feed : Feed := ⟨5, "http://w6", "n", none, 0, none⟩

/-- A store holding the C6 witness feed. -/
def w6Db : Db := Feed.insert emptyDb "dave" w6Feed

/-- A collaborator whose fetch always fails (C6 witness). -/
def w6Env : FetchEnv := fun _ => .error (.reqwest "timeout")

/-- Witness for C6 at a concrete one-feed batch whose worker fails. -/
theorem refresh_health_update_witness :
    treeGet (((fetch_all_feeds w6Env (fun _ => 10) (fun _ => 20) w6Db "dave").2.1).tree
        (colName "dave" .feeds)) (serLE 8 w6Feed.id)
      = some (serFeed (healthUpdate (fun _ => 20) w6Env 0 w6Feed))
      ∧ (healthUpdate (fun _ => 20) w6Env 0 w6Feed).last_fetch_time = 20
      ∧ (5 : Int) ≤ 20
      ∧ (healthUpdate (fun _ => 20) w6Env 0 w6Feed).last_error
          = workerErr (envOutcome w6Env w6Feed) :=
  refresh_health_update w6Env (fun _ => 10) (fun _ => 20) w6Db "dave" [w6Feed] 5 rfl
    (by simp) (fun _ => (by decide : (5 : Int) ≤ 20)) 0 (by decide)

/-- First feed of the C5 witness batch. -/
def w5F1 : Feed := ⟨1, "http://one", "", none, 0, none⟩

/-- Second (failing) feed of the C5 witness batch. -/
def w5F2 : Feed := ⟨2, "http://two", "", none, 0, none⟩

/-- Third feed of the C5 witness batch. -/
def w5F3 : Feed := ⟨3, "http://three", "", none, 0, none⟩

/-- A store holding the three C5 witness feeds. -/
def w5Db : Db :=
  Feed.insert (Feed.insert (Feed.insert emptyDb "erin" w5F1) "erin" w5F2) "erin" w5F3

/-- The entry served for the first C5 feed. -/
def w5E1 : Entry := ⟨"x", none, none, none, [], some 50⟩

/-- The entry served for the third C5 feed (no publish date). -/
def w5E3 : Entry := ⟨"y", none, none, none, [], none⟩

/-- The C5 collaborator: feed two fails, feeds one and three succeed. -/
def w5Env : FetchEnv := fun url =>
  if url = "http://two" then .error (.reqwest "connection refused")
  else if url = "http://one" then .ok [w5E1]
  else .ok [w5E3]

/-- Witness for C5 at a concrete three-feed batch whose middle feed
fails. -/
theorem refresh_failure_isolation_witness :
    treeGet (((fetch_all_feeds w5Env (fun _ => 10) (fun _ => 20) w5Db "erin").2.1).tree
        (colName "erin" .feeds)) (serLE 8 w5F2.id)
      = some (serFeed (healthUpdate (fun _ => 20) w5Env 1 w5F2))
      ∧ (healthUpdate (fun _ => 20) w5Env 1 w5F2).last_error
          = some (Err.reqwest "connection refused").msg
      ∧ ((fetch_all_feeds w5Env (fun _ => 10) (fun _ => 20) w5Db "erin").1 = .ok ()
          ∨ (fetch_all_feeds w5Env (fun _ => 10) (fun _ => 20) w5Db "erin").1
              = .error (.encode "invalid data"))
      ∧ (∀ (j : Nat) (hj : j < [w5F1, w5F2, w5F3].length) (es : List Entry),
          w5Env (([w5F1, w5F2, w5F3].get ⟨j, hj⟩).url) = .ok es →
            treeGet (((fetch_all_feeds w5Env (fun _ => 10) (fun _ => 20) w5Db "erin").2.1).tree
                (colName "erin" .feeds)) (serLE 8 ([w5F1, w5F2, w5F3].get ⟨j, hj⟩).id)
              = some (serFeed (healthUpdate (fun _ => 20) w5Env j
                  ([w5F1, w5F2, w5F3].get ⟨j, hj⟩)))
            ∧ (healthUpdate (fun _ => 20) w5Env j ([w5F1, w5F2, w5F3].get ⟨j, hj⟩)).last_error
                = none
            ∧ ∀ a ∈ es, ∃ p,
                treeGet (((fetch_all_feeds w5Env (fun _ => 10) (fun _ => 20) w5Db
                      "erin").2.1).tree (colName "erin" .articles)) (utf8Str a.id)
                  = some (serArticle (entryArticle ([w5F1, w5F2, w5F3].get ⟨j, hj⟩).id a p))) :=
  refresh_failure_isolation w5Env (fun _ => 10) (fun _ => 20) w5Db "erin"
    [w5F1, w5F2, w5F3] 1 (by decide) (.reqwest "connection refused") rfl rfl
    (by decide) (by decide)

/-- The single feed of the C7 witness. -/
def w7Feed : Feed := ⟨4, "http://w7", "", none, 0, none⟩

/-- A store holding the C7 witness feed. -/
def w7Db : Db := Feed.insert emptyDb "frank" w7Feed

/-- The C7 collaborator: an empty successful parse. -/
def w7Env : FetchEnv := fun _ => .ok []

/-- Witness for C7 at a concrete one-feed batch. -/
theorem refresh_rebuild_barrier_witness :
    (fetch_all_feeds w7Env (fun _ => 0) (fun _ => 0) w7Db "frank").2.2
        = ([w7Feed].map fun f => Event.feedDone f.id) ++ [Event.indexRebuilt]
      ∧ (∀ (i j fid : Nat),
          ((fetch_all_feeds w7Env (fun _ => 0) (fun _ => 0) w7Db "frank").2.2)[i]?
              = some (Event.feedDone fid) →
          ((fetch_all_feeds w7Env (fun _ => 0) (fun _ => 0) w7Db "frank").2.2)[j]?
              = some Event.indexRebuilt → i < j)
      ∧ (∀ e, (AppUser.create_search_index
            (feedPhase w7Env (fun _ => 0) (fun _ => 0) "frank" 0 w7Db [w7Feed]).1 "frank").1
              = .error e →
          (fetch_all_feeds w7Env (fun _ => 0) (fun _ => 0) w7Db "frank").1 = .error e) :=
  refresh_rebuild_barrier w7Env (fun _ => 0) (fun _ => 0) w7Db "frank" [w7Feed] rfl

/-- Witness for C8 at the concrete distinct usernames alice and bob. -/
theorem user_namespace_isolation_witness :
    (∀ c1 c2 : Col, colName "alice" c1 ≠ colName "bob" c2)
      ∧ (∀ (op : RepoOp) (db : Db) (c : Col),
          ((runOp op "alice" db).1).tree (colName "bob" c) = db.tree (colName "bob" c))
      ∧ (∀ (op : RepoOp) (db db' : Db),
          (∀ c : Col, db.tree (colName "alice" c) = db'.tree (colName "alice" c)) →
          (runOp op "alice" db).2 = (runOp op "alice" db').2) :=
  user_namespace_isolation "alice" "bob" (by decide)

/-- The C10 witness subscription, supplying no name. -/
def w10New : NewFeed := ⟨"http://w10", none, none⟩

/-- Witness for C10 at a concrete nameless subscription on the empty
store. -/
theorem new_feed_defaults_witness :
    (NewFeed.insert w10New emptyDb "gwen").1 = .ok ()
      ∧ treeGet (((NewFeed.insert w10New emptyDb "gwen").2).tree (colName "gwen" .feeds))
            (serLE 8 emptyDb.nextId)
          = some (serFeed (newFeedRecord emptyDb.nextId w10New))
      ∧ ((NewFeed.insert w10New emptyDb "gwen").2).nextId = emptyDb.nextId + 1
      ∧ (newFeedRecord emptyDb.nextId w10New).last_error = none
      ∧ (newFeedRecord emptyDb.nextId w10New).last_fetch_time = dtMinUtc
      ∧ (w10New.name = none → (newFeedRecord emptyDb.nextId w10New).name = "") :=
  new_feed_defaults emptyDb "gwen" w10New

end NanoRSS
